import Mathlib

/-!
Verification development for the FundVal-Live valuation core.

Frontend definitions are translated from the JavaScript sources
(`src/unnamed/part_000` App.jsx, `src/frontend/src/pages/FundsPage.jsx`,
`src/unnamed/part_002` WatchlistsPage.jsx,
`src/frontend/src/components/IntradayChart.jsx`).  The Python backend
(Estimation Engine, Snapshot Collector, Analytics Engine, Source Router) is
not part of the packaged sources — only its PyInstaller build description is
— so those components are modelled from the specification; each such
definition carries a doc comment starting with `Modelled from the spec:`.
-/

namespace FundVal

/-- A watchlist entry as held in App.jsx state: the fund id plus the rest of
the fund record (names, net values, ...), abstracted as a payload. -/
structure WatchFund where
  id : String
  payload : ℚ
  deriving DecidableEq

/-- App.loadPreferences dedup filter (src/unnamed/part_000 lines 51-58 and
70-77): a stateful `Array.filter` over a `seen` set, keeping a fund only when
its id has not occurred earlier in the list. -/
def dedupGo (seen : List String) : List WatchFund → List WatchFund
  | [] => []
  | f :: rest =>
    if f.id ∈ seen then dedupGo seen rest
    else f :: dedupGo (f.id :: seen) rest

/-- The watchlist deduplication as invoked by App.loadPreferences: the seen
set starts empty. -/
def dedupWatchlist (l : List WatchFund) : List WatchFund := dedupGo [] l

/-- The per-fund result of `getFundDetail` in App.jsx's polling tick: either
the detail record or the caught request error. -/
inductive FetchError
  | timeout
  | httpError
  deriving DecidableEq

/-- The detail fields that the tick spreads over the stored fund record. -/
structure FundDetail where
  payload : ℚ
  deriving DecidableEq

/-- The object spread `{ ...fund, ...detail }` in App.jsx's polling tick:
detail fields overwrite the stored payload, the id is preserved. -/
def mergeDetail (f : WatchFund) (d : FundDetail) : WatchFund :=
  { f with payload := d.payload }

/-- App.jsx polling tick (src/unnamed/part_000 lines 184-206): every
watchlist fund is refreshed independently; a per-fund try/catch returns the
previous entry unchanged on failure, so one rejection neither aborts
`Promise.all` nor disturbs sibling funds. -/
def pollingTick (getFundDetail : String → Except FetchError FundDetail)
    (watchlist : List WatchFund) : List WatchFund :=
  watchlist.map fun fund =>
    match getFundDetail fund.id with
    | .ok detail => mergeDetail fund detail
    | .error _ => fund

/-- A rendered table cell for the growth column: the dash placeholder or a
formatted percentage value. -/
inductive GrowthCell
  | missing
  | value (pct : ℚ)
  deriving DecidableEq

/-- One entry of the `estimates` map returned by `fundsAPI.batchEstimate`,
as consumed by the frontend tables; an absent or null growth field is
`none`. -/
structure EstimateRow where
  estimate_growth : Option ℚ
  deriving DecidableEq

/-- FundsPage.jsx 涨跌 column render (lines 236-249): the guard
`if (!estimate || !estimate.estimate_growth) return '-'` tests JavaScript
truthiness, so a present numeric growth of exactly 0 takes the dash branch
just like a missing one. -/
def fundsPageGrowthCell (estimate : Option EstimateRow) : GrowthCell :=
  match estimate with
  | none => .missing
  | some e =>
    match e.estimate_growth with
    | none => .missing
    | some g => if g = 0 then .missing else .value g

/-- WatchlistsPage.jsx 估算涨跌 column render (src/unnamed/part_002 lines
294-302): the guard is `value === null || value === undefined`, so a zero
growth is formatted as a value. -/
def watchlistsPageGrowthCell (v : Option ℚ) : GrowthCell :=
  match v with
  | none => .missing
  | some g => .value g

/-- JavaScript `x.toFixed(2)` followed by `parseFloat`: rounding to two
decimal places, ties away from zero. -/
def jsToFixed2 (x : ℚ) : ℚ :=
  (if 0 ≤ x then (⌊x * 100 + 1 / 2⌋ : ℤ) else -⌊-(x * 100) + 1 / 2⌋) / 100

/-- IntradayChart.jsx chartData (lines 56-60): the displayed rate divides by
the last official NAV, with a truthiness guard `data.prevNav ? ... : 0`, so
an absent or zero prevNav yields 0 instead of a division. -/
def chartEstRate (prevNav : Option ℚ) (estimateNav : ℚ) : ℚ :=
  match prevNav with
  | none => 0
  | some p => if p = 0 then 0 else jsToFixed2 ((estimateNav - p) / p * 100)

/- ### Dedup filter lemmas (claim C10) -/

lemma dedupGo_sublist (seen : List String) (l : List WatchFund) :
    (dedupGo seen l).Sublist l := by
  induction l generalizing seen with
  | nil => simp [dedupGo]
  | cons f rest ih =>
    by_cases h : f.id ∈ seen
    · simp only [dedupGo, if_pos h]
      exact (ih seen).cons f
    · simp only [dedupGo, if_neg h]
      exact (ih (f.id :: seen)).cons₂ f

lemma dedupGo_id_not_seen (seen : List String) (l : List WatchFund) :
    ∀ a ∈ dedupGo seen l, a.id ∉ seen := by
  induction l generalizing seen with
  | nil => simp [dedupGo]
  | cons f rest ih =>
    intro a ha
    by_cases h : f.id ∈ seen
    · rw [dedupGo, if_pos h] at ha
      exact ih seen a ha
    · rw [dedupGo, if_neg h] at ha
      rcases List.mem_cons.mp ha with rfl | ha
      · exact h
      · have := ih (f.id :: seen) a ha
        intro hs
        exact this (List.mem_cons_of_mem _ hs)

lemma dedupGo_pairwise (seen : List String) (l : List WatchFund) :
    (dedupGo seen l).Pairwise (fun a b => a.id ≠ b.id) := by
  induction l generalizing seen with
  | nil => simp [dedupGo]
  | cons f rest ih =>
    by_cases h : f.id ∈ seen
    · rw [dedupGo, if_pos h]; exact ih seen
    · rw [dedupGo, if_neg h]
      refine List.Pairwise.cons ?_ (ih (f.id :: seen))
      intro a ha
      have := dedupGo_id_not_seen (f.id :: seen) rest a ha
      intro he
      exact this (by rw [← he]; exact List.mem_cons_self _ _)

lemma dedupGo_of_fresh (seen : List String) (l : List WatchFund)
    (hfresh : ∀ a ∈ l, a.id ∉ seen)
    (hpw : l.Pairwise (fun a b => a.id ≠ b.id)) :
    dedupGo seen l = l := by
  induction l generalizing seen with
  | nil => simp [dedupGo]
  | cons f rest ih =>
    have hf : f.id ∉ seen := hfresh f (List.mem_cons_self _ _)
    rw [dedupGo, if_neg hf]
    rcases List.pairwise_cons.mp hpw with ⟨hhead, htail⟩
    congr 1
    refine ih (f.id :: seen) ?_ htail
    intro a ha hs
    rcases List.mem_cons.mp hs with hs | hs
    · exact hhead a ha hs.symm
    · exact hfresh a (List.mem_cons_of_mem _ ha) hs

/-- Claim C10: the watchlist deduplication filter keeps exactly the first
occurrence of each fund id: the output has pairwise-distinct ids, kept
elements appear in their input order (the output is a sublist of the input),
and the filter is idempotent. -/
theorem C10_dedup_first_occurrence (l : List WatchFund) :
    (dedupWatchlist l).Pairwise (fun a b => a.id ≠ b.id) ∧
    (dedupWatchlist l).Sublist l ∧
    dedupWatchlist (dedupWatchlist l) = dedupWatchlist l := by
  refine ⟨dedupGo_pairwise [] l, dedupGo_sublist [] l, ?_⟩
  exact dedupGo_of_fresh [] (dedupGo [] l) (by simp) (dedupGo_pairwise [] l)

/- ### Polling tick (claim C6) -/

/-- Claim C6: per-fund failures are isolated in a polling tick: the refreshed
list has the same length; splitting the watchlist around any fund shows that
fund's new entry depends only on its own fetch result — it stays unchanged
when its fetch fails — while every other fund in the batch is still
processed exactly as it would be alone. -/
theorem C6_tick_failure_isolation
    (getFundDetail : String → Except FetchError FundDetail)
    (wl : List WatchFund) :
    (pollingTick getFundDetail wl).length = wl.length ∧
    (∀ pre fund post, wl = pre ++ fund :: post →
      pollingTick getFundDetail wl =
        pollingTick getFundDetail pre ++
          (match getFundDetail fund.id with
            | .ok d => mergeDetail fund d
            | .error _ => fund) :: pollingTick getFundDetail post) ∧
    (∀ fund e, getFundDetail fund.id = .error e →
      (match getFundDetail fund.id with
        | .ok d => mergeDetail fund d
        | .error _ => fund) = fund) := by
  refine ⟨by simp [pollingTick], ?_, ?_⟩
  · intro pre fund post hw
    subst hw
    simp [pollingTick]
  · intro fund e he
    rw [he]

/-- Witness for claim C6 at a concrete batch: fund "B"'s fetch fails, its
entry is kept verbatim, and funds "A" and "C" are still refreshed. -/
theorem C6_tick_failure_isolation_witness :
    pollingTick
        (fun s => if s = "B" then .error .timeout else .ok ⟨9⟩)
        [⟨"A", 1⟩, ⟨"B", 2⟩, ⟨"C", 3⟩] =
      [⟨"A", 9⟩, ⟨"B", 2⟩, ⟨"C", 9⟩] := by
  have h := (C6_tick_failure_isolation
      (fun s => if s = "B" then .error .timeout else .ok ⟨9⟩)
      [⟨"A", 1⟩, ⟨"B", 2⟩, ⟨"C", 3⟩]).2.1
      [⟨"A", 1⟩] ⟨"B", 2⟩ [⟨"C", 3⟩] rfl
  rw [h]; rfl

/- ### Growth-cell rendering (claim C3) -/

/-- Claim C3 (code bug evidence): the FundsPage 涨跌 render maps a present
growth of exactly 0 to the dash placeholder — the same output as missing
data — while the repository's parallel WatchlistsPage render presents the
same zero growth as a value, and FundsPage itself presents any nonzero
near-zero growth as a value.  This evaluates the translated renders at the
failing input. -/
theorem C3_zero_growth_rendered_missing :
    fundsPageGrowthCell (some ⟨some 0⟩) = .missing ∧
    watchlistsPageGrowthCell (some 0) = .value 0 ∧
    fundsPageGrowthCell (some ⟨some (1 / 1000)⟩) = .value (1 / 1000) ∧
    fundsPageGrowthCell none = .missing := by
  refine ⟨rfl, rfl, ?_, rfl⟩
  norm_num [fundsPageGrowthCell]

/- ### Estimation Engine (spec-modelled) -/

/-- A disclosed holding: instrument code and portfolio weight (spec section 3). -/
structure Holding where
  instrumentCode : String
  weight : ℚ
  deriving DecidableEq

/-- A canonical instrument quote (spec section 3); only the fields the
estimation arithmetic reads. -/
structure Quote where
  lastPrice : ℚ
  prevClose : ℚ
  deriving DecidableEq

/-- Per-instrument intraday return (spec section 4.4 step 3). -/
def instrumentReturn (q : Quote) : ℚ := (q.lastPrice - q.prevClose) / q.prevClose

/-- Modelled from the spec: the Estimation Engine's backend implementation is
not in the packaged sources.  Spec section 4.4 step 3: for each holding with
a successful quote compute the per-instrument return, guarding
prev_close = 0 as a skip case.  This collects the (weight, return) pairs of
the holdings that survive both guards; a quote lookup of `none` is a
per-instrument Failure. -/
def successfulPairs (holdings : List Holding) (quotes : String → Option Quote) :
    List (ℚ × ℚ) :=
  holdings.filterMap fun h =>
    match quotes h.instrumentCode with
    | none => none
    | some q =>
      if q.prevClose = 0 then none else some (h.weight, instrumentReturn q)

/-- The typed Unresolvable result of the Estimation Engine (spec sections 4.4
and 7). -/
inductive UnresolvableReason
  | noHoldings
  | noQuotes
  deriving DecidableEq

/-- The derived Estimate record (spec section 3), restricted to the fields
the claims mention. -/
structure Estimate where
  estimateGrowthPct : ℚ
  estimateNav : ℚ
  contributingHoldingsCount : ℕ
  deriving DecidableEq

/-- Modelled from the spec: the Estimation Engine `estimate` (spec section
4.4), whose backend implementation is not in the packaged sources.  Steps:
no holdings → Unresolvable no_holdings; zero holdings with successful quotes
→ Unresolvable no_quotes; growth = Σ(weight × return) over successful
holdings renormalized by the successful weight sum; a zero renormalization
denominator is Unresolvable rather than a division (spec section 8);
estimate_nav = last_official_nav × (1 + growth). -/
def estimate (holdings : List Holding) (quotes : String → Option Quote)
    (lastOfficialNav : ℚ) : Except UnresolvableReason Estimate :=
  if holdings.isEmpty then .error .noHoldings
  else
    let pairs := successfulPairs holdings quotes
    if pairs.isEmpty then .error .noQuotes
    else
      let denom := (pairs.map Prod.fst).sum
      if denom = 0 then .error .noQuotes
      else
        let g := (pairs.map fun p => p.1 * p.2).sum / denom
        .ok { estimateGrowthPct := g
              estimateNav := lastOfficialNav * (1 + g)
              contributingHoldingsCount := pairs.length }

instance {ε α : Type} [DecidableEq ε] [DecidableEq α] :
    DecidableEq (Except ε α) := fun x y =>
  match x, y with
  | .ok a, .ok b =>
    if h : a = b then .isTrue (by rw [h])
    else .isFalse fun he => h (Except.ok.inj he)
  | .ok _, .error _ => .isFalse fun he => Except.noConfusion he
  | .error _, .ok _ => .isFalse fun he => Except.noConfusion he
  | .error e, .error f =>
    if h : e = f then .isTrue (by rw [h])
    else .isFalse fun he => h (Except.error.inj he)

/-- The claim's numerator, in its own words: Σ(weight_i × return_i) over the
holdings with a successful quote. -/
def claimNumerator (holdings : List Holding) (quotes : String → Option Quote) : ℚ :=
  ((successfulPairs holdings quotes).map fun p => p.1 * p.2).sum

/-- The claim's denominator, in its own words: the sum of the weights of the
successful holdings. -/
def claimDenominator (holdings : List Holding) (quotes : String → Option Quote) : ℚ :=
  ((successfulPairs holdings quotes).map Prod.fst).sum

/-- The scenario fund of spec section 8: three disclosed holdings with
weights 0.5, 0.3, 0.1. -/
def scenarioHoldings : List Holding :=
  [⟨"S1", 1 / 2⟩, ⟨"S2", 3 / 10⟩, ⟨"S3", 1 / 10⟩]

/-- The scenario quotes: holding 1 returns +2%, holding 2 returns −1%, and
holding 3's quote fails. -/
def scenarioQuotes : String → Option Quote := fun c =>
  if c = "S1" then some ⟨51 / 50, 1⟩
  else if c = "S2" then some ⟨99 / 100, 1⟩
  else none

lemma successfulPairs_scenario :
    successfulPairs scenarioHoldings scenarioQuotes =
      [(1 / 2, 1 / 50), (3 / 10, -1 / 100)] := by
  simp [successfulPairs, scenarioHoldings, scenarioQuotes, instrumentReturn]
  norm_num

lemma estimate_scenario_eval :
    estimate scenarioHoldings scenarioQuotes 1 =
      .ok ⟨7 / 800, 807 / 800, 2⟩ := by
  rw [estimate, if_neg (by simp [scenarioHoldings])]
  simp only [successfulPairs_scenario]
  norm_num

/-- Claim C1: for a partially quoted fund, estimate_growth_pct is the
weight-weighted sum of per-instrument returns over the successfully quoted
holdings divided by the sum of those holdings' weights (not by 1); on the
spec scenario (weights 0.5/0.3/0.1, returns +2%/−1%/no quote) the growth is
7/800 = 0.00875, not 7/1000 = 0.007. -/
theorem C1_renormalized_growth :
    (∀ holdings quotes nav est, estimate holdings quotes nav = .ok est →
      est.estimateGrowthPct =
        claimNumerator holdings quotes / claimDenominator holdings quotes) ∧
    (∃ est, estimate scenarioHoldings scenarioQuotes 1 = .ok est ∧
      est.estimateGrowthPct = 7 / 800) ∧
    (7 : ℚ) / 800 ≠ 7 / 1000 := by
  refine ⟨?_, ?_, by norm_num⟩
  · intro holdings quotes nav est h
    by_cases h1 : holdings.isEmpty
    · simp [estimate, h1] at h
    · by_cases h2 : (successfulPairs holdings quotes).isEmpty
      · simp [estimate, h1, h2] at h
      · by_cases h3 : ((successfulPairs holdings quotes).map Prod.fst).sum = 0
        · simp [estimate, h1, h2, h3] at h
        · simp only [estimate, h1, h2, h3, if_false, if_neg,
            Bool.false_eq_true, Except.ok.injEq] at h
          rw [← h]
          rfl
  · exact ⟨⟨7 / 800, 807 / 800, 2⟩, estimate_scenario_eval, rfl⟩

/-- Witness for claim C1: the general renormalization equation applied at
the spec scenario. -/
theorem C1_renormalized_growth_witness :
    (Estimate.mk (7 / 800) (807 / 800) 2).estimateGrowthPct =
      claimNumerator scenarioHoldings scenarioQuotes /
        claimDenominator scenarioHoldings scenarioQuotes :=
  C1_renormalized_growth.1 scenarioHoldings scenarioQuotes 1
    ⟨7 / 800, 807 / 800, 2⟩ estimate_scenario_eval

/- ### Snapshot Collector (spec-modelled, claim C2) -/

/-- An intraday snapshot (spec section 3), at one collection time. -/
structure Snapshot where
  fundCode : String
  time : ℕ
  estimateNav : ℚ
  deriving DecidableEq

/-- Modelled from the spec: the Snapshot Collector tick (spec section 4.5),
whose backend implementation is not in the packaged sources.  For every
tracked fund it invokes the Estimation Engine; on success it appends a
snapshot, on Unresolvable it skips that fund without failing the batch. -/
def collectTick (estimateOf : String → Except UnresolvableReason Estimate)
    (t : ℕ) (funds : List String) (store : List Snapshot) : List Snapshot :=
  funds.foldl
    (fun s fc =>
      match estimateOf fc with
      | .ok e => s ++ [⟨fc, t, e.estimateNav⟩]
      | .error _ => s)
    store

/-- Claim C2: a fund with holdings but zero successful quotes gets the typed
result Unresolvable no_quotes (never a zero-growth estimate), and the
Snapshot Collector, on an Unresolvable fund, writes nothing for it and
continues the tick over the remaining funds exactly as if the fund were
absent — the tick never raises, being a total function. -/
theorem C2_no_quotes_unresolvable :
    (∀ holdings quotes nav, holdings ≠ [] →
      successfulPairs holdings quotes = [] →
      estimate holdings quotes nav = .error .noQuotes) ∧
    (∀ estimateOf t fc rest store r, estimateOf fc = .error r →
      collectTick estimateOf t (fc :: rest) store =
        collectTick estimateOf t rest store) := by
  constructor
  · intro holdings quotes nav hne hzero
    rw [estimate]
    rw [if_neg (by simpa using hne)]
    simp only [hzero]
    rfl
  · intro estimateOf t fc rest store r herr
    rw [collectTick, List.foldl_cons, herr]
    rfl

/-- Witness for claim C2: the spec scenario with all three quotes failing is
Unresolvable no_quotes, and a tick over that fund plus a healthy fund writes
only the healthy fund's snapshot. -/
theorem C2_no_quotes_unresolvable_witness :
    estimate scenarioHoldings (fun _ => none) 1 = .error .noQuotes ∧
    collectTick
        (fun fc => if fc = "F" then .error .noQuotes else .ok ⟨0, 2, 1⟩)
        930 ["F", "G"] [] =
      collectTick
        (fun fc => if fc = "F" then .error .noQuotes else .ok ⟨0, 2, 1⟩)
        930 ["G"] [] := by
  constructor
  · exact C2_no_quotes_unresolvable.1 scenarioHoldings (fun _ => none) 1
      (by decide) (by rfl)
  · exact C2_no_quotes_unresolvable.2
      (fun fc => if fc = "F" then .error .noQuotes else .ok ⟨0, 2, 1⟩)
      930 "F" ["G"] [] .noQuotes (by rfl)

/- ### NAV/growth relation and chart rate (claim C4) -/

/-- Claim C4: estimated NAV and growth are related by
estimate_nav = last_official_nav × (1 + estimate_growth_pct), and the
intraday chart's displayed rate for a snapshot, when the previous official
NAV is present (and nonzero, per its truthiness guard), is
(estimate − prevNav) / prevNav × 100 rounded to two decimals — so composing
the two, a snapshot at nav × (1 + g) displays g × 100 rounded. -/
theorem C4_growth_relative_to_official_nav :
    (∀ holdings quotes nav est, estimate holdings quotes nav = .ok est →
      est.estimateNav = nav * (1 + est.estimateGrowthPct)) ∧
    (∀ p e, p ≠ 0 → chartEstRate (some p) e = jsToFixed2 ((e - p) / p * 100)) ∧
    (∀ p g, p ≠ 0 →
      chartEstRate (some p) (p * (1 + g)) = jsToFixed2 (g * 100)) := by
  refine ⟨?_, ?_, ?_⟩
  · intro holdings quotes nav est h
    by_cases h1 : holdings.isEmpty
    · simp [estimate, h1] at h
    · by_cases h2 : (successfulPairs holdings quotes).isEmpty
      · simp [estimate, h1, h2] at h
      · by_cases h3 : ((successfulPairs holdings quotes).map Prod.fst).sum = 0
        · simp [estimate, h1, h2, h3] at h
        · simp only [estimate, h1, h2, h3, if_false, if_neg,
            Bool.false_eq_true, Except.ok.injEq] at h
          rw [← h]
  · intro p e hp
    rw [chartEstRate, if_neg hp]
  · intro p g hp
    rw [chartEstRate, if_neg hp]
    congr 1
    field_simp
    ring

/-- Witness for claim C4: the spec scenario's estimate satisfies the NAV
relation, and a chart snapshot at 1 × (1 + 1%) over prevNav 1 displays
1% × 100 rounded. -/
theorem C4_growth_relative_to_official_nav_witness :
    (Estimate.mk (7 / 800) (807 / 800) 2).estimateNav =
        1 * (1 + (Estimate.mk (7 / 800) (807 / 800) 2).estimateGrowthPct) ∧
    chartEstRate (some 1) (1 * (1 + 1 / 100)) = jsToFixed2 (1 / 100 * 100) :=
  ⟨C4_growth_relative_to_official_nav.1 scenarioHoldings scenarioQuotes 1
      ⟨7 / 800, 807 / 800, 2⟩ estimate_scenario_eval,
    C4_growth_relative_to_official_nav.2.2 1 (1 / 100) one_ne_zero⟩

/- ### Division guards (claim C5) -/

/-- Claim C5: every per-instrument return that contributes to an estimate
comes from a quote with nonzero prev_close (a zero or absent prev_close is
skipped), every returned Estimate has a nonzero renormalization denominator
(so its growth involves no division by zero), and the chart guards an absent
or zero previous NAV by displaying 0 instead of dividing. -/
theorem C5_prev_close_zero_guarded :
    (∀ holdings quotes w r, (w, r) ∈ successfulPairs holdings quotes →
      ∃ h ∈ holdings, ∃ q, quotes h.instrumentCode = some q ∧
        q.prevClose ≠ 0 ∧ w = h.weight ∧ r = instrumentReturn q) ∧
    (∀ holdings quotes nav est, estimate holdings quotes nav = .ok est →
      claimDenominator holdings quotes ≠ 0) ∧
    (∀ e, chartEstRate none e = 0 ∧ chartEstRate (some 0) e = 0) := by
  refine ⟨?_, ?_, ?_⟩
  · intro holdings quotes w r hmem
    rcases List.mem_filterMap.mp hmem with ⟨h, hh, hf⟩
    refine ⟨h, hh, ?_⟩
    rcases hq : quotes h.instrumentCode with _ | q
    · rw [hq] at hf
      exact absurd hf (by simp)
    · rw [hq] at hf
      change (if q.prevClose = 0 then none
        else some (h.weight, instrumentReturn q)) = some (w, r) at hf
      by_cases hz : q.prevClose = 0
      · rw [if_pos hz] at hf; exact absurd hf (by simp)
      · rw [if_neg hz] at hf
        simp only [Option.some.injEq, Prod.mk.injEq] at hf
        exact ⟨q, rfl, hz, hf.1.symm, hf.2.symm⟩
  · intro holdings quotes nav est h
    by_cases h1 : holdings.isEmpty
    · simp [estimate, h1] at h
    · by_cases h2 : (successfulPairs holdings quotes).isEmpty
      · simp [estimate, h1, h2] at h
      · by_cases h3 : ((successfulPairs holdings quotes).map Prod.fst).sum = 0
        · simp [estimate, h1, h2, h3] at h
        · exact h3
  · intro e
    exact ⟨rfl, by rw [chartEstRate, if_pos rfl]⟩

/-- Witness for claim C5: the spec scenario's returned estimate has a
nonzero renormalization denominator. -/
theorem C5_prev_close_zero_guarded_witness :
    claimDenominator scenarioHoldings scenarioQuotes ≠ 0 :=
  C5_prev_close_zero_guarded.2.1 scenarioHoldings scenarioQuotes 1
    ⟨7 / 800, 807 / 800, 2⟩ estimate_scenario_eval

/- ### Analytics Engine: Sharpe guard (claim C8) -/

/-- Daily returns (spec section 4.6): nav_i / nav_{i-1} − 1 over consecutive
observations. -/
def dailyReturns : List ℚ → List ℚ
  | [] => []
  | [_] => []
  | a :: b :: rest => (b / a - 1) :: dailyReturns (b :: rest)

/-- Arithmetic mean of a list of rationals. -/
def mean (l : List ℚ) : ℚ := l.sum / l.length

/-- Population variance of a list of rationals (the square of the stdev the
spec's volatility uses). -/
def variance (l : List ℚ) : ℚ := ((l.map fun x => (x - mean l) ^ 2).sum) / l.length

/-- The typed InsufficientData result of the Analytics Engine (spec sections
4.6 and 7). -/
inductive StatsFailure
  | insufficientData
  deriving DecidableEq

/-- The risk/return statistics record, restricted to the fields claim C8
mentions; an undefined Sharpe is `none`. -/
structure Stats where
  sharpe : Option ℚ
  annualizedVol : ℚ
  deriving DecidableEq

/-- Modelled from the spec: the Analytics Engine computeStats (spec section
4.6), whose backend implementation is not in the packaged sources.  The
numeric square root used for the volatility is a parameter `sqrtFn`
(theorems assume of it only sqrtFn 0 = 0).  Under 20 observations the result
is InsufficientData; annualized volatility = stdev(daily returns) × √252;
Sharpe = (mean(daily returns) × 252 − risk_free) / volatility, guarded to
`none` when the volatility is zero. -/
def computeStats (sqrtFn : ℚ → ℚ) (riskFree : ℚ) (navs : List ℚ) :
    Except StatsFailure Stats :=
  if navs.length < 20 then .error .insufficientData
  else
    let rs := dailyReturns navs
    let vol := sqrtFn (variance rs) * sqrtFn 252
    .ok { sharpe := if vol = 0 then none
            else some ((mean rs * 252 - riskFree) / vol)
          annualizedVol := vol }

/-- Claim C8: for a series whose daily returns have zero variance (flat
series, volatility 0) and enough observations, computeStats returns a Stats
record whose Sharpe is `none`; and whenever a Sharpe value is returned at
all, the volatility it divides by is nonzero — in particular no infinite
value and no unguarded division by zero can be produced. -/
theorem C8_flat_series_sharpe_undefined (sqrtFn : ℚ → ℚ) (riskFree : ℚ)
    (navs : List ℚ) (h0 : sqrtFn 0 = 0) (hlen : ¬navs.length < 20)
    (hvar : variance (dailyReturns navs) = 0) :
    computeStats sqrtFn riskFree navs = .ok ⟨none, 0⟩ ∧
    (∀ rf navs' st v, computeStats sqrtFn rf navs' = .ok st →
      st.sharpe = some v → st.annualizedVol ≠ 0) := by
  constructor
  · rw [computeStats, if_neg hlen]
    simp [hvar, h0]
  · intro rf navs' st v hok hs
    by_cases hl : navs'.length < 20
    · rw [computeStats, if_pos hl] at hok
      exact absurd hok (by simp)
    · rw [computeStats, if_neg hl] at hok
      by_cases hv : sqrtFn (variance (dailyReturns navs')) * sqrtFn 252 = 0
      · simp only [hv, if_pos, Except.ok.injEq] at hok
        rw [← hok] at hs
        simp at hs
      · simp only [hv, if_neg, Except.ok.injEq] at hok
        rw [← hok]
        exact hv

/-- A flat 20-observation NAV series. -/
def flatNavs : List ℚ :=
  [1, 1, 1, 1, 1, 1, 1, 1, 1, 1, 1, 1, 1, 1, 1, 1, 1, 1, 1, 1]

/-- Witness for claim C8: a flat 20-point series gets Sharpe `none`. -/
theorem C8_flat_series_sharpe_undefined_witness :
    computeStats (fun x => x) 0 flatNavs = .ok ⟨none, 0⟩ :=
  (C8_flat_series_sharpe_undefined (fun x => x) 0 flatNavs rfl
    (by norm_num [flatNavs])
    (by norm_num [flatNavs, dailyReturns, variance, mean])).1

/- ### Source Router health policy (claim C9) -/

/-- Router health configuration: the consecutive-failure threshold N and the
cooldown window length (spec section 4.2). -/
structure RouterConfig where
  failureThreshold : ℕ
  cooldown : ℕ
  deriving DecidableEq

/-- Per-source circuit state (spec section 3, Source Health). -/
structure SourceHealth where
  consecutiveFailures : ℕ
  disabledUntil : ℕ
  deriving DecidableEq

/-- Modelled from the spec: the Source Router's failure bookkeeping (spec
section 4.2), whose backend implementation is not in the packaged sources.
A failure at time t increments the consecutive-failure count; reaching the
threshold disables the source until t + cooldown (re-extending on later
failures). -/
def recordFailure (cfg : RouterConfig) (t : ℕ) (h : SourceHealth) :
    SourceHealth :=
  let f := h.consecutiveFailures + 1
  if cfg.failureThreshold ≤ f then ⟨f, t + cfg.cooldown⟩
  else ⟨f, h.disabledUntil⟩

/-- Modelled from the spec: a successful call resets the source's
consecutive-failure count to 0 (spec section 4.2). -/
def recordSuccess (h : SourceHealth) : SourceHealth :=
  ⟨0, h.disabledUntil⟩

/-- A sequence of failures recorded in order at the given times. -/
def recordFailures (cfg : RouterConfig) (ts : List ℕ) (h : SourceHealth) :
    SourceHealth :=
  ts.foldl (fun h t => recordFailure cfg t h) h

/-- A source is available at time t unless its cooldown extends past t. -/
def isAvailable (t : ℕ) (h : SourceHealth) : Bool :=
  decide (h.disabledUntil ≤ t)

/-- Modelled from the spec: routing for a market tries the configured
ordered sources, skipping disabled ones (spec section 4.2); this is the
ordered list of sources the router may invoke at time t. -/
def routeAttempts (t : ℕ) (sources : List (String × SourceHealth)) :
    List String :=
  (sources.filter fun s => isAvailable t s.2).map Prod.fst

lemma recordFailures_threshold (cfg : RouterConfig) :
    ∀ (ts : List ℕ) (h : SourceHealth) (tN : ℕ),
      ts.getLast? = some tN →
      cfg.failureThreshold ≤ h.consecutiveFailures + ts.length →
      recordFailures cfg ts h =
        ⟨h.consecutiveFailures + ts.length, tN + cfg.cooldown⟩ := by
  intro ts
  induction ts with
  | nil => intro h tN hlast; simp at hlast
  | cons a rest ih =>
    intro h tN hlast hthr
    rcases rest with _ | ⟨b, rest'⟩
    · simp only [List.getLast?_singleton, Option.some.injEq] at hlast
      subst hlast
      simp only [List.length_cons, List.length_nil] at hthr
      rw [recordFailures, List.foldl_cons, recordFailure]
      simp only [List.foldl_nil]
      rw [if_pos (by omega)]
      simp [recordFailures]
    · have hlast' : (b :: rest').getLast? = some tN := by
        rwa [List.getLast?_cons_cons] at hlast
      have step : recordFailures cfg (a :: b :: rest') h =
          recordFailures cfg (b :: rest') (recordFailure cfg a h) := rfl
      rw [step]
      have hcount : (recordFailure cfg a h).consecutiveFailures =
          h.consecutiveFailures + 1 := by
        rw [recordFailure]
        split <;> rfl
      rw [ih (recordFailure cfg a h) tN hlast'
        (by rw [hcount]; simp at hthr ⊢; omega)]
      rw [hcount]
      congr 1
      simp [List.length_cons]
      omega

/-- Claim C9: once a source "A" has suffered N = failureThreshold
consecutive failures (the last at time tN, starting from a clean failure
count), every routing decision at a time inside the cooldown window finds A
unavailable, never includes A among the sources it may invoke, and routes
exactly as if only the fallback sources existed; and a single success resets
the consecutive-failure count to 0. -/
theorem C9_circuit_breaker (cfg : RouterConfig) (h0 : SourceHealth)
    (ts : List ℕ) (tN t' : ℕ) (others : List (String × SourceHealth))
    (hc : h0.consecutiveFailures = 0) (hN : ts.length = cfg.failureThreshold)
    (hlast : ts.getLast? = some tN) (ht' : t' < tN + cfg.cooldown)
    (hothers : ∀ s ∈ others, s.1 ≠ "A") :
    isAvailable t' (recordFailures cfg ts h0) = false ∧
    "A" ∉ routeAttempts t' (("A", recordFailures cfg ts h0) :: others) ∧
    routeAttempts t' (("A", recordFailures cfg ts h0) :: others) =
      routeAttempts t' others ∧
    (∀ h, (recordSuccess h).consecutiveFailures = 0) := by
  have hrec : recordFailures cfg ts h0 =
      ⟨h0.consecutiveFailures + ts.length, tN + cfg.cooldown⟩ :=
    recordFailures_threshold cfg ts h0 tN hlast (by omega)
  have hnav : isAvailable t' (recordFailures cfg ts h0) = false := by
    rw [hrec, isAvailable]
    simp only [decide_eq_false_iff_not]
    omega
  have hroute : routeAttempts t' (("A", recordFailures cfg ts h0) :: others) =
      routeAttempts t' others := by
    rw [routeAttempts, List.filter_cons]
    rw [hnav]
    rfl
  refine ⟨hnav, ?_, hroute, fun h => rfl⟩
  rw [hroute, routeAttempts]
  intro hmem
  rcases List.mem_map.mp hmem with ⟨s, hs, hfst⟩
  exact hothers s (List.mem_of_mem_filter hs) hfst

/-- Witness for claim C9: with threshold 3 and cooldown 60, failures at
times 10, 20, 30 disable source "A" at time 50, routing only to "B". -/
theorem C9_circuit_breaker_witness :
    isAvailable 50 (recordFailures ⟨3, 60⟩ [10, 20, 30] ⟨0, 0⟩) = false ∧
    "A" ∉ routeAttempts 50
        [("A", recordFailures ⟨3, 60⟩ [10, 20, 30] ⟨0, 0⟩), ("B", ⟨0, 0⟩)] ∧
    (recordSuccess ⟨5, 7⟩).consecutiveFailures = 0 := by
  have h := C9_circuit_breaker ⟨3, 60⟩ ⟨0, 0⟩ [10, 20, 30] 30 50
    [("B", ⟨0, 0⟩)] rfl rfl rfl (by decide) (by decide)
  exact ⟨h.1, h.2.1, h.2.2.2 ⟨5, 7⟩⟩

/- ### Analytics Engine: max drawdown (claim C7) -/

/-- Modelled from the spec: one step of the Analytics Engine's running-peak
single pass (spec section 4.6), whose backend implementation is not in the
packaged sources.  The state is (running peak, drawdown accumulator); each
observation raises the peak and then records 1 − nav / peak. -/
def mddStep (st : ℚ × ℚ) (nav : ℚ) : ℚ × ℚ :=
  let peak := max st.1 nav
  (peak, max st.2 (1 - nav / peak))

/-- Modelled from the spec: max drawdown via the running-peak single pass
(spec section 4.6): the peak starts at the first observation and the
drawdown accumulator at 0. -/
def maxDrawdown : List ℚ → ℚ
  | [] => 0
  | n :: rest => (rest.foldl mddStep (n, 0)).2

/-- The drawdown terms produced by the running pass, as a list: term k is
1 − nav_k / (peak including nav_k). -/
def ddTerms : ℚ → List ℚ → List ℚ
  | _, [] => []
  | peak, n :: rest => (1 - n / max peak n) :: ddTerms (max peak n) rest

/-- The claim's prefix peak max(nav_0..nav_i). -/
def prefixPeak (navs : List ℚ) (i : ℕ) : ℚ :=
  (navs.take (i + 1)).foldl max (navs.getD 0 0)

/-- The claim's drawdown term for a pair i < j:
1 − nav_j / max(nav_0..nav_i). -/
def pairDrawdown (navs : List ℚ) (i j : ℕ) : ℚ :=
  1 - navs.getD j 0 / prefixPeak navs i

/-- All of the claim's pairwise drawdown terms, over the pairs i < j of
valid indices. -/
def pairDrawdownList (navs : List ℚ) : List ℚ :=
  (List.range navs.length).flatMap fun j =>
    (List.range j).map fun i => pairDrawdown navs i j

/-- The claim's "maximum over all i<j" of the pairwise drawdown terms (0
when the series has no pair at all). -/
def claimedPairwiseMax (navs : List ℚ) : ℚ :=
  match pairDrawdownList navs with
  | [] => 0
  | t :: ts => ts.foldl max t

lemma init_le_foldl_max (l : List ℚ) : ∀ a : ℚ, a ≤ l.foldl max a := by
  induction l with
  | nil => intro a; simp
  | cons b t ih =>
    intro a
    calc a ≤ max a b := le_max_left a b
    _ ≤ t.foldl max (max a b) := ih (max a b)

lemma mem_le_foldl_max (l : List ℚ) : ∀ (a x : ℚ), x ∈ l → x ≤ l.foldl max a := by
  induction l with
  | nil => intro a x h; simp at h
  | cons c t ih =>
    intro a x h
    rcases List.mem_cons.mp h with rfl | h
    · calc x ≤ max a x := le_max_right a x
      _ ≤ t.foldl max (max a x) := init_le_foldl_max t _
    · exact ih _ x h

lemma foldl_max_le (l : List ℚ) : ∀ (a B : ℚ), a ≤ B → (∀ x ∈ l, x ≤ B) →
    l.foldl max a ≤ B := by
  induction l with
  | nil => intro a B h _; simpa using h
  | cons c t ih =>
    intro a B h hall
    simp only [List.foldl_cons]
    exact ih _ B (max_le h (hall c (List.mem_cons_self c t)))
      fun x hx => hall x (List.mem_cons_of_mem c hx)

lemma foldl_max_take_mono (l : List ℚ) (a : ℚ) (i j : ℕ) (h : i ≤ j) :
    (l.take i).foldl max a ≤ (l.take j).foldl max a := by
  have : l.take j = l.take i ++ (l.drop i).take (j - i) := by
    rw [← List.take_add]
    congr 1
    omega
  rw [this, List.foldl_append]
  exact init_le_foldl_max _ _

lemma foldl_mddStep_snd (l : List ℚ) : ∀ (peak dd : ℚ),
    (l.foldl mddStep (peak, dd)).2 = (ddTerms peak l).foldl max dd := by
  induction l with
  | nil => intro peak dd; rfl
  | cons n rest ih =>
    intro peak dd
    simp only [List.foldl_cons, ddTerms]
    exact ih (max peak n) (max dd (1 - n / max peak n))

lemma ddTerms_length (l : List ℚ) : ∀ peak : ℚ,
    (ddTerms peak l).length = l.length := by
  induction l with
  | nil => intro peak; rfl
  | cons n rest ih =>
    intro peak
    simp only [ddTerms, List.length_cons, ih]

lemma ddTerms_getD (l : List ℚ) : ∀ (peak : ℚ) (k : ℕ), k < l.length →
    (ddTerms peak l).getD k 0 =
      1 - l.getD k 0 / ((l.take (k + 1)).foldl max peak) := by
  induction l with
  | nil => intro peak k h; simp at h
  | cons n rest ih =>
    intro peak k hk
    cases k with
    | zero => simp [ddTerms, List.take_succ_cons]
    | succ k =>
      simp only [ddTerms, List.getD_cons_succ, List.take_succ_cons,
        List.foldl_cons]
      exact ih (max peak n) k (by simpa using hk)

lemma ddTerms_le_one (l : List ℚ) : ∀ peak : ℚ, (∀ x ∈ l, 0 ≤ x) →
    ∀ y ∈ ddTerms peak l, y ≤ 1 := by
  induction l with
  | nil => intro peak _ y hy; simp [ddTerms] at hy
  | cons n rest ih =>
    intro peak hnn y hy
    rcases List.mem_cons.mp hy with rfl | hy
    · have hn : (0 : ℚ) ≤ n := hnn n (List.mem_cons_self n rest)
      have : (0 : ℚ) ≤ n / max peak n :=
        div_nonneg hn (le_trans hn (le_max_right peak n))
      linarith
    · exact ih (max peak n) (fun x hx => hnn x (List.mem_cons_of_mem n hx)) y hy

lemma mem_pairDrawdownList (navs : List ℚ) (y : ℚ) :
    y ∈ pairDrawdownList navs ↔
      ∃ i j, i < j ∧ j < navs.length ∧ y = pairDrawdown navs i j := by
  simp only [pairDrawdownList, List.mem_flatMap, List.mem_map, List.mem_range]
  constructor
  · rintro ⟨j, hj, i, hi, rfl⟩
    exact ⟨i, j, hi, hj, rfl⟩
  · rintro ⟨i, j, hi, hj, rfl⟩
    exact ⟨j, hj, i, hi, rfl⟩

lemma prefixPeak_cons (n₀ : ℚ) (rest : List ℚ) (i : ℕ) :
    prefixPeak (n₀ :: rest) i = (rest.take i).foldl max n₀ := by
  simp [prefixPeak, List.take_succ_cons, List.foldl_cons]

lemma maxDrawdown_nonneg (navs : List ℚ) : 0 ≤ maxDrawdown navs := by
  cases navs with
  | nil => simp [maxDrawdown]
  | cons n rest =>
    rw [maxDrawdown, foldl_mddStep_snd]
    exact init_le_foldl_max _ 0

lemma maxDrawdown_le_one (navs : List ℚ) (hnn : ∀ x ∈ navs, 0 ≤ x) :
    maxDrawdown navs ≤ 1 := by
  cases navs with
  | nil => simp [maxDrawdown]
  | cons n rest =>
    rw [maxDrawdown, foldl_mddStep_snd]
    exact foldl_max_le _ 0 1 zero_le_one
      (ddTerms_le_one rest n (fun x hx => hnn x (List.mem_cons_of_mem n hx)))

lemma pair_le_maxDrawdown (navs : List ℚ) (hpos : ∀ x ∈ navs, 0 < x) :
    ∀ i j, i < j → j < navs.length →
      pairDrawdown navs i j ≤ maxDrawdown navs := by
  cases navs with
  | nil => intro i j hij hj; simp at hj
  | cons n₀ rest =>
    intro i j hij hj
    rcases Nat.exists_eq_succ_of_ne_zero (by omega : j ≠ 0) with ⟨k, rfl⟩
    have hk : k < rest.length := by simpa using hj
    have hn₀ : (0 : ℚ) < n₀ := hpos n₀ (List.mem_cons_self n₀ rest)
    have hv : (0 : ℚ) < rest.getD k 0 := by
      rw [List.getD_eq_getElem rest 0 hk]
      exact hpos _ (List.mem_cons_of_mem n₀ (List.getElem_mem hk))
    have hPpos : ∀ m : ℕ, (0 : ℚ) < (rest.take m).foldl max n₀ :=
      fun m => lt_of_lt_of_le hn₀ (init_le_foldl_max _ n₀)
    have hPmono : (rest.take i).foldl max n₀ ≤ (rest.take k).foldl max n₀ :=
      foldl_max_take_mono rest n₀ i k (by omega)
    have hpd : pairDrawdown (n₀ :: rest) i (k + 1) =
        1 - rest.getD k 0 / (rest.take i).foldl max n₀ := by
      rw [pairDrawdown, prefixPeak_cons, List.getD_cons_succ]
    have hQ : (rest.take (k + 1)).foldl max n₀ =
        max ((rest.take k).foldl max n₀) (rest.getD k 0) := by
      rw [List.take_succ, List.getElem?_eq_getElem hk,
        List.getD_eq_getElem rest 0 hk, List.foldl_append]
      rfl
    have hterm : (ddTerms n₀ rest).getD k 0 ≤ maxDrawdown (n₀ :: rest) := by
      rw [maxDrawdown, foldl_mddStep_snd]
      have hkd : k < (ddTerms n₀ rest).length := by rwa [ddTerms_length]
      rw [List.getD_eq_getElem _ 0 hkd]
      exact mem_le_foldl_max _ 0 _ (List.getElem_mem hkd)
    rw [ddTerms_getD rest n₀ k hk, hQ] at hterm
    by_cases hvP : rest.getD k 0 ≤ (rest.take k).foldl max n₀
    · rw [max_eq_left hvP] at hterm
      rw [hpd]
      have hdiv : rest.getD k 0 / (rest.take k).foldl max n₀ ≤
          rest.getD k 0 / (rest.take i).foldl max n₀ :=
        div_le_div_of_nonneg_left hv.le (hPpos i) hPmono
      linarith
    · push_neg at hvP
      have h1 : 1 < rest.getD k 0 / (rest.take k).foldl max n₀ :=
        (one_lt_div (hPpos k)).mpr hvP
      have hdiv : rest.getD k 0 / (rest.take k).foldl max n₀ ≤
          rest.getD k 0 / (rest.take i).foldl max n₀ :=
        div_le_div_of_nonneg_left hv.le (hPpos i) hPmono
      rw [hpd]
      have := maxDrawdown_nonneg (n₀ :: rest)
      linarith

lemma maxDrawdown_le_bound (navs : List ℚ) (hpos : ∀ x ∈ navs, 0 < x)
    (B : ℚ) (hB : 0 ≤ B)
    (hpair : ∀ i j, i < j → j < navs.length → pairDrawdown navs i j ≤ B) :
    maxDrawdown navs ≤ B := by
  cases navs with
  | nil => simpa [maxDrawdown] using hB
  | cons n₀ rest =>
    rw [maxDrawdown, foldl_mddStep_snd]
    refine foldl_max_le _ 0 B hB ?_
    intro y hy
    rcases List.mem_iff_getElem.mp hy with ⟨k, hkd, hyk⟩
    have hk : k < rest.length := by rwa [ddTerms_length] at hkd
    have hydd : y = (ddTerms n₀ rest).getD k 0 := by
      rw [List.getD_eq_getElem _ 0 hkd, hyk]
    rw [hydd, ddTerms_getD rest n₀ k hk]
    have hn₀ : (0 : ℚ) < n₀ := hpos n₀ (List.mem_cons_self n₀ rest)
    have hv : (0 : ℚ) < rest.getD k 0 := by
      rw [List.getD_eq_getElem rest 0 hk]
      exact hpos _ (List.mem_cons_of_mem n₀ (List.getElem_mem hk))
    have hQ : (rest.take (k + 1)).foldl max n₀ =
        max ((rest.take k).foldl max n₀) (rest.getD k 0) := by
      rw [List.take_succ, List.getElem?_eq_getElem hk,
        List.getD_eq_getElem rest 0 hk, List.foldl_append]
      rfl
    rw [hQ]
    by_cases hvP : rest.getD k 0 ≤ (rest.take k).foldl max n₀
    · rw [max_eq_left hvP]
      have := hpair k (k + 1) (by omega) (by simpa using hk)
      rwa [pairDrawdown, prefixPeak_cons, List.getD_cons_succ] at this
    · push_neg at hvP
      rw [max_eq_right hvP.le, div_self (ne_of_gt hv)]
      simpa using hB

lemma mem_le_claimedPairwiseMax (navs : List ℚ) :
    ∀ y ∈ pairDrawdownList navs, y ≤ claimedPairwiseMax navs := by
  intro y hy
  rcases hpl : pairDrawdownList navs with _ | ⟨t, ts⟩
  · rw [hpl] at hy; simp at hy
  · rw [hpl] at hy
    rw [claimedPairwiseMax, hpl]
    rcases List.mem_cons.mp hy with rfl | hy
    · exact init_le_foldl_max ts y
    · exact mem_le_foldl_max ts t y hy

lemma claimedPairwiseMax_le (navs : List ℚ) (hpos : ∀ x ∈ navs, 0 < x) :
    claimedPairwiseMax navs ≤ maxDrawdown navs := by
  rcases hpl : pairDrawdownList navs with _ | ⟨t, ts⟩
  · rw [claimedPairwiseMax, hpl]
    exact maxDrawdown_nonneg navs
  · rw [claimedPairwiseMax, hpl]
    have hmem : ∀ y ∈ pairDrawdownList navs, y ≤ maxDrawdown navs := by
      intro y hy
      rcases (mem_pairDrawdownList navs y).mp hy with ⟨i, j, hij, hj, rfl⟩
      exact pair_le_maxDrawdown navs hpos i j hij hj
    refine foldl_max_le ts t _ ?_ ?_
    · exact hmem t (by rw [hpl]; exact List.mem_cons_self t ts)
    · intro x hx
      exact hmem x (by rw [hpl]; exact List.mem_cons_of_mem t hx)

/-- Claim C7 (amended): for a NAV series of positive values, the
running-peak single-pass max drawdown equals the maximum over all pairs
i < j of (1 − nav_j / max(nav_0..nav_i)) clamped below at 0 — the
accumulator starts at 0, so a series whose pairwise terms are all negative
(a rising series) yields 0, not the negative pairwise maximum — and it
always satisfies 0 ≤ max_drawdown ≤ 1. -/
theorem C7_running_peak_drawdown (navs : List ℚ) (hpos : ∀ x ∈ navs, 0 < x) :
    maxDrawdown navs = max 0 (claimedPairwiseMax navs) ∧
    0 ≤ maxDrawdown navs ∧ maxDrawdown navs ≤ 1 := by
  refine ⟨le_antisymm ?_ ?_, maxDrawdown_nonneg navs,
    maxDrawdown_le_one navs (fun x hx => (hpos x hx).le)⟩
  · refine maxDrawdown_le_bound navs hpos _ (le_max_left 0 _) ?_
    intro i j hij hj
    refine le_trans (mem_le_claimedPairwiseMax navs _ ?_) (le_max_right 0 _)
    exact (mem_pairDrawdownList navs _).mpr ⟨i, j, hij, hj, rfl⟩
  · exact max_le (maxDrawdown_nonneg navs) (claimedPairwiseMax_le navs hpos)

/-- Counterexample to claim C7 as stated: on the rising series [1, 2] the
only pair (i, j) = (0, 1) has drawdown term 1 − 2/1 = −1, so the maximum
over all i < j is −1, but the running-peak pass computes 0 — the claimed
equality with the bare pairwise maximum fails (it needs the clamp at 0, as
the claim's own bound 0 ≤ max_drawdown requires). -/
theorem C7_counterexample_increasing :
    maxDrawdown [1, 2] = 0 ∧ claimedPairwiseMax [1, 2] = -1 ∧
    (0 : ℚ) ≠ -1 := by
  have hpl : pairDrawdownList [(1 : ℚ), 2] = [-1] := by
    norm_num [pairDrawdownList, pairDrawdown, prefixPeak, List.range_succ]
  refine ⟨?_, ?_, by norm_num⟩
  · norm_num [maxDrawdown, mddStep]
  · rw [claimedPairwiseMax, hpl]
    rfl

/-- Witness for claim C7 at the series [2, 1, 2], whose drawdown is 1/2. -/
theorem C7_running_peak_drawdown_witness :
    maxDrawdown [2, 1, 2] = max 0 (claimedPairwiseMax [2, 1, 2]) ∧
    0 ≤ maxDrawdown [2, 1, 2] ∧ maxDrawdown [2, 1, 2] ≤ 1 :=
  C7_running_peak_drawdown [2, 1, 2] (by norm_num)

end FundVal
